import Mathlib

/-
Verification of the RsGenetic simulation engine (src/sim/seq.rs and
src/sim/select/stochastic.rs) against its natural-language specification.

The Rust code is shallowly embedded as executable Lean definitions:
* `f64` fitness values are modelled as `Rat` (the claims under study do not
  depend on rounding; the one place where IEEE special values matter, the
  roulette acceptance test with a zero maximum fitness, is modelled
  explicitly in `rouletteAccept`);
* `u32`/`usize`/`i32` machine integers are modelled as `Nat`/`Int`, with an
  explicit `% 4294967296` where a `u32` multiplication can wrap;
* a Rust panic (index out of bounds, division by zero, arithmetic
  underflow) and an inner loop that exhausts its fuel are modelled by the
  `crash` constructor of the respective result type;
* randomness is passed in explicitly: each random draw the code makes is
  read from a caller-supplied stream, so theorems quantify over every
  possible sequence of draws.
-/

/-- Rust enum `FitnessType` from src/sim (Maximize / Minimize). -/
inductive FitnessType where
  | Maximize
  | Minimize
deriving DecidableEq

/-- Rust enum `SelectionType`: Maximize{count}, Tournament{num, count},
Stochastic{count}, Roulette{count}. The `u32` fields are modelled as `Nat`. -/
inductive SelectionType where
  | Maximize (count : Nat)
  | Tournament (num : Nat) (count : Nat)
  | Stochastic (count : Nat)
  | Roulette (count : Nat)
deriving DecidableEq

/-- Result of an embedded fallible computation: `ok` models `Ok`, `err`
models `Err(String)`, and `crash` models a Rust panic (or an inner loop
that never terminates, cut off by fuel). -/
inductive RRes (α : Type) where
  | ok (val : α)
  | err (msg : String)
  | crash
deriving DecidableEq

/-- Rust struct `EarlyStopper` (src/sim/seq.rs lines 22-31): delta,
previously recorded fitness, maximum stagnation count, current stagnation
count. -/
structure EarlyStopper where
  delta : Rat
  previous : Rat
  max_iters : Nat
  n_iters : Nat
deriving DecidableEq

/-- `EarlyStopper::new` (src/sim/seq.rs lines 35-42). -/
def EarlyStopper.new (delta : Rat) (n_iters : Nat) : EarlyStopper :=
  { delta := delta, previous := 0, max_iters := n_iters, n_iters := 0 }

/-- `EarlyStopper::update` (src/sim/seq.rs lines 47-56). Note that in the
source, `self.previous = fitness` is executed only inside the
`if (fitness - self.previous).abs() < self.delta` branch; the `else`
branch resets `n_iters` to zero and leaves `previous` untouched.  The
returned `Bool` is `self.n_iters >= self.max_iters`, computed on the
updated state. -/
def EarlyStopper.update (s : EarlyStopper) (fitness : Rat) : Bool × EarlyStopper :=
  let s' :=
    if |fitness - s.previous| < s.delta then
      { s with previous := fitness, n_iters := s.n_iters + 1 }
    else
      { s with n_iters := 0 }
  (decide (s'.max_iters ≤ s'.n_iters), s')

/-- The external `Phenotype` trait: fitness (an `f64`, modelled as `Rat`),
crossover and mutate. -/
structure Phenotype (T : Type) where
  fitness : T → Rat
  crossover : T → T → T
  mutate : T → T

/-- Rust `cloned.sort_by(|x, y| x.fitness().partial_cmp(&y.fitness())
.unwrap_or(Ordering::Equal))`: a stable ascending sort by fitness.  Over
`Rat` the comparison is total, so the `unwrap_or(Equal)` fallback never
fires. -/
def sortByFit {T : Type} (P : Phenotype T) (l : List T) : List T :=
  l.insertionSort (fun x y => P.fitness x ≤ P.fitness y)

/-- Indexing `population[j % population.len()]` for a nonempty population.
The source code keeps its cyclic indices reduced modulo the population
length; this helper performs that reduction at each access. -/
def idxGet {T : Type} (pop : List T) (j : Nat) (h : pop ≠ []) : T :=
  pop.get ⟨j % pop.length, Nat.mod_lt _ (List.length_pos.mpr h)⟩

theorem idxGet_mem {T : Type} (pop : List T) (j : Nat) (h : pop ≠ []) :
    idxGet pop j h ∈ pop :=
  List.get_mem pop _ _

theorem idxGet_mod {T : Type} (pop : List T) (a b : Nat) (h : pop ≠ []) :
    idxGet pop (a % pop.length + b) h = idxGet pop (a + b) h := by
  unfold idxGet
  congr 1
  exact Fin.ext (by simp [Nat.mod_add_mod])

theorem sortByFit_length {T : Type} (P : Phenotype T) (l : List T) :
    (sortByFit P l).length = l.length :=
  List.length_insertionSort _ l

theorem sortByFit_ne_nil {T : Type} (P : Phenotype T) (l : List T) (h : l ≠ []) :
    sortByFit P l ≠ [] := by
  intro hc
  apply h
  have := sortByFit_length P l
  rw [hc] at this
  exact List.length_eq_zero.mp this.symm

theorem sortByFit_mem {T : Type} (P : Phenotype T) (l : List T) (x : T) :
    x ∈ sortByFit P l ↔ x ∈ l :=
  List.mem_insertionSort _

/-- C1: the claim asserts that after every `EarlyStopper::update(f)` call
the stored `previous` equals `f`.  This is false: when the absolute
difference is not smaller than `delta`, the source only resets `n_iters`
and leaves `previous` unchanged.  Concrete input: stopper with delta 1 and
previous 0, updated with fitness 5; afterwards `previous` is still 0. -/
theorem c1_counterexample :
    (EarlyStopper.update ⟨1, 0, 10, 0⟩ 5).2.previous ≠ 5 := by
  have h : ¬(|(5 : Rat) - 0| < 1) := by norm_num
  simp [EarlyStopper.update, h]

/-- C1 (amended): `update(f)` stores `f` into `previous` exactly when
`|f - previous| < delta` (in which case the stagnation count is also
incremented); otherwise `previous` is left unchanged and the stagnation
count resets to zero.  The returned flag is `max_iters ≤ n_iters` on the
updated state. -/
theorem c1_amended (s : EarlyStopper) (f : Rat) :
    (s.update f).2.previous =
      (if |f - s.previous| < s.delta then f else s.previous) ∧
    (s.update f).2.n_iters =
      (if |f - s.previous| < s.delta then s.n_iters + 1 else 0) ∧
    (s.update f).2.delta = s.delta ∧
    (s.update f).2.max_iters = s.max_iters ∧
    (s.update f).1 = decide ((s.update f).2.max_iters ≤ (s.update f).2.n_iters) := by
  unfold EarlyStopper.update
  by_cases h : |f - s.previous| < s.delta <;> simp [h]

/-- Error message built by `format!` in `selection_maximize` and in the
`num` and `count` checks of `selection_tournament` (the backslash line
continuation in the Rust source swallows the newline and indentation). -/
def msgCountHalf (c : Nat) : String :=
  "Invalid parameter `count`: " ++ toString c ++
    ". Should be larger than zero and less than half the population size."

/-- Error message of the `num` check in `selection_tournament`. -/
def msgNumHalf (n : Nat) : String :=
  "Invalid parameter `num`: " ++ toString n ++
    ". Should be larger than zero and less than half the population size."

/-- Error message of `selection_stochastic`, `selection_roulette` and
`StochasticSelector::select`. -/
def msgCountFull (c : Nat) : String :=
  "Invalid parameter `count`: " ++ toString c ++
    ". Should be larger than zero and less than the population size."

/-- The pairing loop of `selection_maximize` (src/sim/seq.rs lines
172-177): `while index < sorted.len() { result.push((sorted[index],
sorted[index + 1])); index += 2 }`.  When the list has odd length the last
iteration reads `sorted[index + 1]` out of bounds, a panic, modelled by
`crash`. -/
def pairUp {T : Type} : List T → RRes (List (T × T))
  | [] => RRes.ok []
  | [_] => RRes.crash
  | a :: b :: rest =>
    match pairUp rest with
    | RRes.ok l => RRes.ok ((a, b) :: l)
    | e => e

/-- Consecutive pairing as the specification describes it: positions 0&1,
2&3, and so on; a trailing odd element is simply not paired. -/
def consecPairs {T : Type} : List T → List (T × T)
  | a :: b :: rest => (a, b) :: consecPairs rest
  | _ => []

/-- The fitness-sorted duplicate of the population used by truncation
selection: ascending insertion sort, reversed when the direction is
Maximize (src/sim/seq.rs lines 164-170). -/
def sortedDup {T : Type} (P : Phenotype T) (pop : List T) (ft : FitnessType) : List T :=
  let cloned := sortByFit P pop
  if ft = FitnessType.Maximize then cloned.reverse else cloned

/-- `Simulator::selection_maximize` (src/sim/seq.rs lines 157-179,
truncation selection).  `count` is a `u32`, so the validation's
`count * 2` is computed modulo 2^32 (release-mode wrapping; a debug build
would panic on the same overflow, and either behaviour differs from the
mathematical bound the specification states). -/
def selection_maximize {T : Type} (P : Phenotype T) (pop : List T) (count : Nat)
    (ft : FitnessType) : RRes (List (T × T)) :=
  if count = 0 ∨ pop.length ≤ (count * 2) % 4294967296 then
    RRes.err (msgCountHalf count)
  else
    pairUp ((sortedDup P pop ft).take (2 * count))

theorem pairUp_even_aux {T : Type} :
    ∀ (n : Nat) (l : List T), l.length ≤ n → l.length % 2 = 0 →
      pairUp l = RRes.ok (consecPairs l) ∧ (consecPairs l).length = l.length / 2 := by
  intro n
  induction n with
  | zero =>
    intro l hl _
    have : l = [] := List.length_eq_zero.mp (Nat.le_zero.mp hl)
    subst this
    exact ⟨rfl, by simp [consecPairs]⟩
  | succ n ih =>
    intro l hl he
    match l with
    | [] => exact ⟨rfl, by simp [consecPairs]⟩
    | [a] => simp at he
    | a :: b :: rest =>
      have h1 : rest.length ≤ n := by simp at hl; omega
      have h2 : rest.length % 2 = 0 := by simp at he; omega
      obtain ⟨hp, hlen⟩ := ih rest h1 h2
      constructor
      · simp [pairUp, consecPairs, hp]
      · simp [consecPairs, hlen]
        omega

theorem sortedDup_length {T : Type} (P : Phenotype T) (pop : List T) (ft : FitnessType) :
    (sortedDup P pop ft).length = pop.length := by
  unfold sortedDup
  by_cases h : ft = FitnessType.Maximize <;> simp [h, sortByFit_length]

/-- The phenotype instance used by the concrete witnesses: trivial
individuals with constant fitness 0. -/
def unitP : Phenotype Unit :=
  { fitness := fun _ => 0, crossover := fun _ _ => (), mutate := fun _ => () }

/-- C6: the claim says truncation selection fails exactly when `count = 0`
or `2·count ≥ N`.  This is false for `count = 2^31`: the validation
computes `count * 2` in wrapping 32-bit arithmetic, which yields 0, so a
population of length 4 passes validation and the call returns two pairs
even though `2·count ≥ 4`. -/
theorem c6_counterexample :
    (4 : Nat) ≤ 2 * 2147483648 ∧
    selection_maximize unitP [(), (), (), ()] 2147483648 FitnessType.Minimize =
      RRes.ok [((), ()), ((), ())] :=
  ⟨by norm_num, by decide⟩

/-- C6 (amended): for `count < 2^31`, where the 32-bit multiplication
cannot wrap, truncation selection fails exactly when `count = 0` or
`2·count ≥ N`; when `0 < count` and `2·count < N` it succeeds and returns
exactly `count` pairs, obtained by pairing the first `2·count` individuals
of the fitness-sorted (reversed when Maximize) duplicate consecutively. -/
theorem c6_amended {T : Type} (P : Phenotype T) (pop : List T) (count : Nat)
    (ft : FitnessType) (hw : count < 2147483648) :
    ((∃ e, selection_maximize P pop count ft = RRes.err e) ↔
      (count = 0 ∨ pop.length ≤ 2 * count)) ∧
    (0 < count → 2 * count < pop.length →
      selection_maximize P pop count ft =
        RRes.ok (consecPairs ((sortedDup P pop ft).take (2 * count))) ∧
      (consecPairs ((sortedDup P pop ft).take (2 * count))).length = count) := by
  have hmod : (count * 2) % 4294967296 = count * 2 :=
    Nat.mod_eq_of_lt (by omega)
  have hcomm : count * 2 = 2 * count := Nat.mul_comm count 2
  constructor
  · constructor
    · rintro ⟨e, he⟩
      unfold selection_maximize at he
      by_cases hc : count = 0 ∨ pop.length ≤ (count * 2) % 4294967296
      · rw [hmod, hcomm] at hc
        exact hc
      · exfalso
        rw [if_neg hc] at he
        push_neg at hc
        obtain ⟨hc0, hclen⟩ := hc
        rw [hmod, hcomm] at hclen
        have hlen : ((sortedDup P pop ft).take (2 * count)).length = 2 * count := by
          rw [List.length_take, sortedDup_length]
          omega
        obtain ⟨hp, _⟩ := pairUp_even_aux ((sortedDup P pop ft).take (2 * count)).length
          ((sortedDup P pop ft).take (2 * count)) le_rfl (by rw [hlen]; omega)
        rw [hp] at he
        exact RRes.noConfusion he
    · intro hc
      refine ⟨msgCountHalf count, ?_⟩
      unfold selection_maximize
      rw [if_pos]
      rw [hmod, hcomm]
      exact hc
  · intro h0 hlt
    have hcond : ¬(count = 0 ∨ pop.length ≤ (count * 2) % 4294967296) := by
      rw [hmod, hcomm]
      omega
    have hlen : ((sortedDup P pop ft).take (2 * count)).length = 2 * count := by
      rw [List.length_take, sortedDup_length]
      omega
    obtain ⟨hp, hl⟩ := pairUp_even_aux ((sortedDup P pop ft).take (2 * count)).length
      ((sortedDup P pop ft).take (2 * count)) le_rfl (by rw [hlen]; omega)
    constructor
    · unfold selection_maximize
      rw [if_neg hcond]
      exact hp
    · rw [hl, hlen]
      omega

/-- C6 witness: a population of five individuals with `count = 1` passes
validation and returns the single consecutive pair of the sorted
duplicate's first two elements. -/
theorem c6_witness :
    selection_maximize unitP [(), (), (), (), ()] 1 FitnessType.Minimize =
      RRes.ok (consecPairs ((sortedDup unitP [(), (), (), (), ()] FitnessType.Minimize).take (2 * 1))) :=
  ((c6_amended unitP [(), (), (), (), ()] 1 FitnessType.Minimize (by norm_num)).2
    (by norm_num) (by decide)).1


/-- One tournament sample (src/sim/seq.rs lines 197-201): draw `count`
random indices `rng.gen::<usize>() % population.len()` starting at draw
position `base` of the stream, and collect the indexed individuals in draw
order. -/
def sampleList {T : Type} (pop : List T) (h : pop ≠ []) (draws : Nat → Nat)
    (base count : Nat) : List T :=
  (List.range count).map (fun j => idxGet pop (draws (base + j)) h)

/-- The two extreme individuals of a sorted tournament sample
(src/sim/seq.rs lines 205-213): `(tournament[len-1], tournament[len-2])`
for Maximize, `(tournament[0], tournament[1])` for Minimize.  `none` means
the sample has fewer than two elements, in which case the source indexing
underflows or goes out of bounds — a panic. -/
def extremes {T : Type} (ft : FitnessType) (l : List T) : Option (T × T) :=
  match ft with
  | FitnessType.Maximize =>
    match l.reverse with
    | a :: b :: _ => some (a, b)
    | _ => none
  | FitnessType.Minimize =>
    match l with
    | a :: b :: _ => some (a, b)
    | _ => none

/-- The outer `for _ in 0..num` loop of `selection_tournament`
(src/sim/seq.rs lines 196-214): one round per iteration, each consuming
`count` draws starting at stream position `base`. -/
def tournRounds {T : Type} (P : Phenotype T) (pop : List T) (h : pop ≠ [])
    (ft : FitnessType) (draws : Nat → Nat) (count : Nat) :
    Nat → Nat → RRes (List (T × T))
  | 0, _ => RRes.ok []
  | n + 1, base =>
    match extremes ft (sortByFit P (sampleList pop h draws base count)) with
    | none => RRes.crash
    | some pr =>
      match tournRounds P pop h ft draws count n (base + count) with
      | RRes.ok l => RRes.ok (pr :: l)
      | e => e

/-- `Simulator::selection_tournament` (src/sim/seq.rs lines 182-216).
`num` and `count` are `u32`; the `num * 2` in the validation wraps modulo
2^32.  The draw stream models consecutive `rng.gen::<usize>()` calls; the
`pop.length = 0` guard models the `% population.len()` panic on an empty
population (unreachable once validation has passed). -/
def selection_tournament {T : Type} (P : Phenotype T) (pop : List T)
    (num count : Nat) (ft : FitnessType) (draws : Nat → Nat) : RRes (List (T × T)) :=
  if num = 0 ∨ pop.length ≤ (num * 2) % 4294967296 then
    RRes.err (msgNumHalf num)
  else if count = 0 ∨ pop.length ≤ count then
    RRes.err (msgCountHalf count)
  else if h0 : pop.length = 0 then
    RRes.crash
  else
    tournRounds P pop (List.length_pos.mp (Nat.pos_of_ne_zero h0)) ft draws count num 0

theorem extremes_of_two_le {T : Type} (ft : FitnessType) (l : List T)
    (h : 2 ≤ l.length) : ∃ pr, extremes ft l = some pr := by
  match ft with
  | FitnessType.Maximize =>
    have hr : 2 ≤ l.reverse.length := by simpa using h
    match hl : l.reverse with
    | [] => rw [hl] at hr; simp at hr
    | [a] => rw [hl] at hr; simp at hr
    | a :: b :: rest => exact ⟨(a, b), by simp [extremes, hl]⟩
  | FitnessType.Minimize =>
    match l with
    | [] => simp at h
    | [a] => simp at h
    | a :: b :: rest => exact ⟨(a, b), by simp [extremes]⟩

theorem sampleList_length {T : Type} (pop : List T) (h : pop ≠ [])
    (draws : Nat → Nat) (base count : Nat) :
    (sampleList pop h draws base count).length = count := by
  simp [sampleList]

theorem tournRounds_spec {T : Type} (P : Phenotype T) (pop : List T) (h : pop ≠ [])
    (ft : FitnessType) (draws : Nat → Nat) (count : Nat) (hc : 2 ≤ count) :
    ∀ (n base : Nat), ∃ l, tournRounds P pop h ft draws count n base = RRes.ok l ∧
      l.length = n ∧
      ∀ (k : Nat) (hk : k < l.length),
        some (l.get ⟨k, hk⟩) =
          extremes ft (sortByFit P (sampleList pop h draws (base + k * count) count)) := by
  intro n
  induction n with
  | zero =>
    intro base
    exact ⟨[], rfl, rfl, fun k hk => absurd hk (by simp)⟩
  | succ n ih =>
    intro base
    have hs : 2 ≤ (sortByFit P (sampleList pop h draws base count)).length := by
      rw [sortByFit_length, sampleList_length]
      exact hc
    obtain ⟨pr, hpr⟩ := extremes_of_two_le ft _ hs
    obtain ⟨l, hl, hlen, hget⟩ := ih (base + count)
    refine ⟨pr :: l, ?_, by simp [hlen], ?_⟩
    · unfold tournRounds
      rw [hpr, hl]
    · intro k hk
      match k with
      | 0 =>
        show some pr = _
        rw [Nat.zero_mul, Nat.add_zero]
        exact hpr.symm
      | k + 1 =>
        have hk' : k < l.length := by simpa using hk
        have hrec := hget k hk'
        have harg : base + count + k * count = base + (k + 1) * count := by ring
        show some (l.get ⟨k, hk'⟩) = _
        rw [hrec, harg]

/-- C2: the claim asserts tournament selection succeeds for every
`0 < rounds`, `2·rounds < N`, `0 < sampleSize < N`, "in particular for
sampleSize = 1".  This is false at sampleSize = 1: the sample then has one
element and the source indexing `tournament[tournament.len() - 2]` (resp.
`tournament[1]`) panics.  Concrete input: population of three, rounds = 1,
sampleSize = 1. -/
theorem c2_counterexample :
    selection_tournament unitP [(), (), ()] 1 1 FitnessType.Maximize (fun _ => 0) =
      RRes.crash := by
  decide

/-- C2 (amended): for every `0 < rounds`, `2·rounds < N` and
`2 ≤ sampleSize < N`, tournament selection succeeds and returns exactly
`rounds` pairs, the k-th pair being the two extreme individuals (per the
fitness direction) of the fitness-sorted sample of `sampleSize` random
draws made in round k.  The claim's inclusion of sampleSize = 1 is dropped:
that case panics instead of succeeding. -/
theorem c2_amended {T : Type} (P : Phenotype T) (pop : List T) (hne : pop ≠ [])
    (num count : Nat) (ft : FitnessType) (draws : Nat → Nat)
    (hn0 : 0 < num) (hn2 : 2 * num < pop.length)
    (hc2 : 2 ≤ count) (hcN : count < pop.length) :
    ∃ l, selection_tournament P pop num count ft draws = RRes.ok l ∧
      l.length = num ∧
      ∀ (k : Nat) (hk : k < l.length),
        some (l.get ⟨k, hk⟩) =
          extremes ft (sortByFit P (sampleList pop hne draws (k * count) count)) := by
  have hv1 : ¬(num = 0 ∨ pop.length ≤ (num * 2) % 4294967296) := by
    have hmod : (num * 2) % 4294967296 ≤ num * 2 := Nat.mod_le _ _
    omega
  have hv2 : ¬(count = 0 ∨ pop.length ≤ count) := by omega
  have hne0 : ¬(pop.length = 0) := by
    have := List.length_pos.mpr hne
    omega
  obtain ⟨l, hl, hlen, hget⟩ := tournRounds_spec P pop hne ft draws count hc2 num 0
  refine ⟨l, ?_, hlen, ?_⟩
  · unfold selection_tournament
    rw [if_neg hv1, if_neg hv2, dif_neg hne0]
    exact hl
  · intro k hk
    have hrec := hget k hk
    rw [Nat.zero_add] at hrec
    exact hrec

/-- C2 witness: population of five, one round, sample size two. -/
theorem c2_witness :
    ∃ l, selection_tournament unitP [(), (), (), (), ()] 1 2 FitnessType.Maximize
        (fun _ => 0) = RRes.ok l ∧
      l.length = 1 ∧
      ∀ (k : Nat) (hk : k < l.length),
        some (l.get ⟨k, hk⟩) =
          extremes FitnessType.Maximize
            (sortByFit unitP (sampleList [(), (), (), (), ()] (by decide) (fun _ => 0) (k * 2) 2)) :=
  c2_amended unitP [(), (), (), (), ()] (by decide) 1 2 FitnessType.Maximize (fun _ => 0)
    (by decide) (by decide) (by decide) (by decide)

/-- The pointer walk of `Simulator::selection_stochastic` (src/sim/seq.rs
lines 227-236): `while selected < count { result.push((population[i],
population[(i + ratio - 1) % len])); i += ratio - 1; i %= len;
selected += 2 }`.  The second argument counts how far `selected` still is
from `count`; each iteration advances it by 2.  `ratio ≥ 1` always holds
at the call sites (validation guarantees `count < len`), so the `ratio - 1`
truncated subtraction agrees with the `usize` arithmetic of the source. -/
def stochLoop {T : Type} (pop : List T) (h : pop ≠ []) (ratio : Nat) :
    Nat → Nat → List (T × T)
  | _, 0 => []
  | i, 1 => [(idxGet pop i h, idxGet pop (i + ratio - 1) h)]
  | i, r + 2 =>
    (idxGet pop i h, idxGet pop (i + ratio - 1) h) ::
      stochLoop pop h ratio ((i + (ratio - 1)) % pop.length) r

/-- `Simulator::selection_stochastic` (src/sim/seq.rs lines 219-238).
`r` models the raw `::rand::random::<usize>()` value; the starting index
is `r % population.len()`.  The `pop.length = 0` guard models the modulus
panic on an empty population (unreachable once validation has passed). -/
def selection_stochastic {T : Type} (pop : List T) (count : Nat) (r : Nat) :
    RRes (List (T × T)) :=
  if count = 0 ∨ pop.length ≤ count then
    RRes.err (msgCountFull count)
  else if h0 : pop.length = 0 then
    RRes.crash
  else
    RRes.ok (stochLoop pop (List.length_pos.mp (Nat.pos_of_ne_zero h0))
      (pop.length / count) (r % pop.length) count)

theorem stochLoop_spec {T : Type} (pop : List T) (h : pop ≠ []) (ratio : Nat)
    (hr : 1 ≤ ratio) :
    ∀ (rem i : Nat),
      (stochLoop pop h ratio i rem).length = (rem + 1) / 2 ∧
      ∀ (k : Nat) (hk : k < (stochLoop pop h ratio i rem).length),
        (stochLoop pop h ratio i rem).get ⟨k, hk⟩ =
          (idxGet pop (i + k * (ratio - 1)) h,
           idxGet pop (i + (k + 1) * (ratio - 1)) h) := by
  intro rem
  induction rem using Nat.strong_induction_on with
  | _ rem ih =>
    match rem with
    | 0 =>
      intro i
      refine ⟨rfl, fun k hk => absurd hk (by simp [stochLoop])⟩
    | 1 =>
      intro i
      refine ⟨rfl, fun k hk => ?_⟩
      match k with
      | 0 =>
        have e1 : i + 0 * (ratio - 1) = i := by omega
        have e2 : i + (0 + 1) * (ratio - 1) = i + ratio - 1 := by omega
        rw [e1, e2]
        rfl
      | k + 1 => exact absurd hk (by simp [stochLoop])
    | r + 2 =>
      intro i
      obtain ⟨ihlen, ihget⟩ := ih r (by omega) ((i + (ratio - 1)) % pop.length)
      constructor
      · show (stochLoop pop h ratio ((i + (ratio - 1)) % pop.length) r).length + 1 = _
        rw [ihlen]
        omega
      · intro k hk
        match k with
        | 0 =>
          have e1 : i + 0 * (ratio - 1) = i := by omega
          have e2 : i + (0 + 1) * (ratio - 1) = i + ratio - 1 := by omega
          rw [e1, e2]
          rfl
        | k + 1 =>
          have hk' : k < (stochLoop pop h ratio ((i + (ratio - 1)) % pop.length) r).length := by
            simpa [stochLoop] using hk
          show (stochLoop pop h ratio ((i + (ratio - 1)) % pop.length) r).get ⟨k, hk'⟩ = _
          rw [ihget k hk']
          have m1 := idxGet_mod pop (i + (ratio - 1)) (k * (ratio - 1)) h
          have m2 := idxGet_mod pop (i + (ratio - 1)) ((k + 1) * (ratio - 1)) h
          rw [m1, m2]
          have e1 : i + (ratio - 1) + k * (ratio - 1) = i + (k + 1) * (ratio - 1) := by ring
          have e2 : i + (ratio - 1) + (k + 1) * (ratio - 1) = i + (k + 1 + 1) * (ratio - 1) := by
            ring
          rw [e1, e2]

/-- C7: stochastic universal sampling fails exactly when `count = 0` or
`count ≥ N`; on success it returns exactly `⌈count/2⌉` pairs following the
cyclic pointer walk with stride `ratio - 1 = N/count - 1` from the random
starting index `r % N`, and every returned parent is drawn from the
population. -/
theorem c7 {T : Type} (pop : List T) (count r : Nat) :
    ((∃ e, selection_stochastic pop count r = RRes.err e) ↔
      (count = 0 ∨ pop.length ≤ count)) ∧
    (0 < count → count < pop.length →
      ∃ (l : List (T × T)) (hne : pop ≠ []),
        selection_stochastic pop count r = RRes.ok l ∧
        l.length = (count + 1) / 2 ∧
        (∀ (k : Nat) (hk : k < l.length),
          l.get ⟨k, hk⟩ =
            (idxGet pop (r % pop.length + k * (pop.length / count - 1)) hne,
             idxGet pop (r % pop.length + (k + 1) * (pop.length / count - 1)) hne)) ∧
        ∀ p ∈ l, p.1 ∈ pop ∧ p.2 ∈ pop) := by
  constructor
  · constructor
    · rintro ⟨e, he⟩
      by_cases hc : count = 0 ∨ pop.length ≤ count
      · exact hc
      · exfalso
        unfold selection_stochastic at he
        rw [if_neg hc] at he
        by_cases h0 : pop.length = 0
        · rw [dif_pos h0] at he
          exact RRes.noConfusion he
        · rw [dif_neg h0] at he
          exact RRes.noConfusion he
    · intro hc
      refine ⟨msgCountFull count, ?_⟩
      unfold selection_stochastic
      rw [if_pos hc]
  · intro h0c hcN
    have hc : ¬(count = 0 ∨ pop.length ≤ count) := by omega
    have h0 : ¬(pop.length = 0) := by omega
    have hne : pop ≠ [] := List.length_pos.mp (Nat.pos_of_ne_zero h0)
    have hr : 1 ≤ pop.length / count := by
      rw [Nat.one_le_div_iff h0c]
      omega
    obtain ⟨hlen, hget⟩ := stochLoop_spec pop hne (pop.length / count) hr count
      (r % pop.length)
    refine ⟨stochLoop pop hne (pop.length / count) (r % pop.length) count, hne, ?_, hlen,
      hget, ?_⟩
    · unfold selection_stochastic
      rw [if_neg hc, dif_neg h0]
    · intro p hp
      obtain ⟨⟨k, hk⟩, hpk⟩ := List.mem_iff_get.mp hp
      rw [hget k hk] at hpk
      rw [← hpk]
      exact ⟨idxGet_mem pop _ hne, idxGet_mem pop _ hne⟩

/-- C7 witness: population of three, `count = 1`, raw random value 5. -/
theorem c7_witness :
    ∃ (l : List (Unit × Unit)) (hne : ([(), (), ()] : List Unit) ≠ []),
      selection_stochastic [(), (), ()] 1 5 = RRes.ok l ∧
      l.length = (1 + 1) / 2 ∧
      (∀ (k : Nat) (hk : k < l.length),
        l.get ⟨k, hk⟩ =
          (idxGet [(), (), ()] (5 % ([(), (), ()] : List Unit).length +
            k * (([(), (), ()] : List Unit).length / 1 - 1)) hne,
           idxGet [(), (), ()] (5 % ([(), (), ()] : List Unit).length +
            (k + 1) * (([(), (), ()] : List Unit).length / 1 - 1)) hne)) ∧
      ∀ p ∈ l, p.1 ∈ ([(), (), ()] : List Unit) ∧ p.2 ∈ ([(), (), ()] : List Unit) :=
  (c7 [(), (), ()] 1 5).2 (by decide) (by decide)

/-- The pointer walk of `StochasticSelector::select`
(src/sim/select/stochastic.rs lines 31-37).  Transcribed separately from
`stochLoop` because the two Rust functions are two copies of the same
algorithm; the refinement claim compares them. -/
def selectLoop {T : Type} (pop : List T) (h : pop ≠ []) (ratio : Nat) :
    Nat → Nat → List (T × T)
  | _, 0 => []
  | i, 1 => [(idxGet pop i h, idxGet pop (i + ratio - 1) h)]
  | i, r + 2 =>
    (idxGet pop i h, idxGet pop (i + ratio - 1) h) ::
      selectLoop pop h ratio ((i + (ratio - 1)) % pop.length) r

/-- Rust struct `StochasticSelector` (src/sim/select/stochastic.rs lines
15-17); its `count` field is a `usize`. -/
structure StochasticSelector where
  count : Nat
deriving DecidableEq

/-- `stochastic_selector(count)` (src/sim/select/stochastic.rs lines
11-13). -/
def stochastic_selector (count : Nat) : StochasticSelector :=
  { count := count }

/-- `StochasticSelector::select` (src/sim/select/stochastic.rs lines
20-39).  The fitness direction argument is ignored by the source (`_`).
`start` is the value produced by `thread_rng().gen_range(0,
population.len())`, a uniformly random index in `[0, N)`; the
`pop.length = 0` guard models the `gen_range(0, 0)` panic (unreachable
once validation has passed). -/
def StochasticSelector.select {T : Type} (sel : StochasticSelector) (pop : List T)
    (ft : FitnessType) (start : Nat) : RRes (List (T × T)) :=
  if sel.count = 0 ∨ pop.length ≤ sel.count then
    RRes.err (msgCountFull sel.count)
  else if h0 : pop.length = 0 then
    RRes.crash
  else
    RRes.ok (selectLoop pop (List.length_pos.mp (Nat.pos_of_ne_zero h0))
      (pop.length / sel.count) start sel.count)

theorem stochLoop_eq_selectLoop {T : Type} (pop : List T) (h : pop ≠ []) (ratio : Nat) :
    ∀ (rem i : Nat), stochLoop pop h ratio i rem = selectLoop pop h ratio i rem := by
  intro rem
  induction rem using Nat.strong_induction_on with
  | _ rem ih =>
    match rem with
    | 0 => intro i; rfl
    | 1 => intro i; rfl
    | r + 2 =>
      intro i
      show _ :: stochLoop pop h ratio ((i + (ratio - 1)) % pop.length) r =
        _ :: selectLoop pop h ratio ((i + (ratio - 1)) % pop.length) r
      rw [ih r (by omega)]

/-- C8: the Engine-internal `Simulator::selection_stochastic` and the
standalone `StochasticSelector::select` implement the same stochastic
universal sampling algorithm: for every population, every count and the
same starting index (`select` receives the index `r % N` that
`selection_stochastic` derives from the raw random value `r`), the two
return identical results — the same `InvalidParameter` error when `count`
is out of bounds and the same list of pairs otherwise. -/
theorem c8 {T : Type} (pop : List T) (count r : Nat) (ft : FitnessType) :
    selection_stochastic pop count r =
      (stochastic_selector count).select pop ft (r % pop.length) := by
  unfold selection_stochastic StochasticSelector.select stochastic_selector
  by_cases hc : count = 0 ∨ pop.length ≤ count
  · rw [if_pos hc, if_pos hc]
  · rw [if_neg hc, if_neg hc]
    by_cases h0 : pop.length = 0
    · rw [dif_pos h0, dif_pos h0]
    · rw [dif_neg h0, dif_neg h0]
      rw [stochLoop_eq_selectLoop]

/-- Result of `Simulator::kill_off`: `ok` is `Ok(())` together with the
population as mutated through `&mut self`; `err` is the
`PopulationInvariant` failure branch, also with the mutated population;
`crash` is a panic. -/
inductive KillRes (T : Type) where
  | ok (pop : List T)
  | err (pop : List T) (msg : String)
  | crash
deriving DecidableEq

/-- The removal loop of `Simulator::kill_off` (src/sim/seq.rs lines
284-290): `while selected < count { population.remove(i); i += ratio - 1;
i %= population.len(); selected += 1 }`.  The third argument counts the
removals still to perform.  `none` models a panic: `remove(i)` with `i`
out of bounds, the `ratio - 1` underflow when `ratio = 0` (a debug build
panics there; a release build wraps and then crashes a few iterations
later on an out-of-bounds remove or an empty-population modulus, so
either way the call never returns normally), or `i % 0` once the
population is empty. -/
def killLoop {T : Type} (ratio : Nat) : List T → Nat → Nat → Option (List T)
  | pop, _, 0 => some pop
  | pop, i, re + 1 =>
    if i < pop.length then
      if ratio = 0 then none
      else if (pop.eraseIdx i).length = 0 then none
      else killLoop ratio (pop.eraseIdx i) ((i + (ratio - 1)) % (pop.eraseIdx i).length) re
    else none

/-- The `PopulationInvariant` failure message of `kill_off` (src/sim/seq.rs
lines 294-295). -/
def reductionMsg : String :=
  "Something went wrong during reduction of population. Invalid number of results."

/-- `Simulator::kill_off` (src/sim/seq.rs lines 279-297).  The function
performs no parameter validation: `count = 0` panics at the
`population.len() / count` division, and an empty population panics at the
`random % len` modulus; `r` models the raw `::rand::random::<usize>()`
value. -/
def kill_off {T : Type} (pop : List T) (count : Nat) (r : Nat) : KillRes T :=
  if count = 0 then KillRes.crash
  else if pop.length = 0 then KillRes.crash
  else
    match killLoop (pop.length / count) pop (r % pop.length) count with
    | none => KillRes.crash
    | some pop' =>
      if pop'.length = pop.length - count then KillRes.ok pop'
      else KillRes.err pop' reductionMsg

theorem killLoop_ok {T : Type} (ratio : Nat) (hr : 1 ≤ ratio) :
    ∀ (rem : Nat) (pop : List T) (i : Nat), rem < pop.length → i < pop.length →
      ∃ pop', killLoop ratio pop i rem = some pop' ∧ pop'.length = pop.length - rem := by
  intro rem
  induction rem with
  | zero => exact fun pop i _ _ => ⟨pop, rfl, rfl⟩
  | succ re ih =>
    intro pop i hrem hi
    have hlen : (pop.eraseIdx i).length = pop.length - 1 :=
      List.length_eraseIdx_of_lt hi
    have hne : (pop.eraseIdx i).length ≠ 0 := by omega
    have hi' : (i + (ratio - 1)) % (pop.eraseIdx i).length < (pop.eraseIdx i).length :=
      Nat.mod_lt _ (by omega)
    have hrem' : re < (pop.eraseIdx i).length := by omega
    obtain ⟨pop', hp, hl⟩ := ih (pop.eraseIdx i) ((i + (ratio - 1)) % (pop.eraseIdx i).length)
      hrem' hi'
    refine ⟨pop', ?_, by omega⟩
    unfold killLoop
    rw [if_pos hi, if_neg (by omega), if_neg hne]
    exact hp

theorem killLoop_some_le {T : Type} (ratio : Nat) :
    ∀ (rem : Nat) (pop : List T) (i : Nat) (pop' : List T),
      killLoop ratio pop i rem = some pop' →
      pop'.length = pop.length - rem ∧ rem ≤ pop.length := by
  intro rem
  induction rem with
  | zero =>
    intro pop i pop' h
    have : pop = pop' := by
      unfold killLoop at h
      exact Option.some.inj h
    subst this
    exact ⟨rfl, Nat.zero_le _⟩
  | succ re ih =>
    intro pop i pop' h
    unfold killLoop at h
    by_cases hi : i < pop.length
    · rw [if_pos hi] at h
      by_cases hz : ratio = 0
      · rw [if_pos hz] at h
        exact Option.noConfusion h
      · rw [if_neg hz] at h
        by_cases hne : (pop.eraseIdx i).length = 0
        · rw [if_pos hne] at h
          exact Option.noConfusion h
        · rw [if_neg hne] at h
          have hlen : (pop.eraseIdx i).length = pop.length - 1 :=
            List.length_eraseIdx_of_lt hi
          obtain ⟨h1, h2⟩ := ih _ _ _ h
          constructor
          · omega
          · omega
    · rw [if_neg hi] at h
      exact Option.noConfusion h

/-- C3: for every population of length at least 2 and every
`1 ≤ count ≤ L - 1`, `kill_off(count)` succeeds, every removal index is in
bounds (an out-of-bounds removal would be a `crash`), the new length is
exactly `L - count`, and the `PopulationInvariant` failure branch is not
taken. -/
theorem c3 {T : Type} (pop : List T) (count r : Nat) (h2 : 2 ≤ pop.length)
    (hc1 : 1 ≤ count) (hc2 : count ≤ pop.length - 1) :
    ∃ pop', kill_off pop count r = KillRes.ok pop' ∧
      pop'.length = pop.length - count := by
  have hr : 1 ≤ pop.length / count := by
    rw [Nat.one_le_div_iff (by omega)]
    omega
  have hi : r % pop.length < pop.length := Nat.mod_lt _ (by omega)
  obtain ⟨pop', hp, hl⟩ := killLoop_ok (pop.length / count) hr count pop (r % pop.length)
    (by omega) hi
  refine ⟨pop', ?_, hl⟩
  unfold kill_off
  rw [if_neg (by omega), if_neg (by omega), hp]
  show (if pop'.length = pop.length - count then KillRes.ok pop'
    else KillRes.err pop' reductionMsg) = KillRes.ok pop'
  rw [if_pos hl]

/-- C3 witness: population of three, removing one individual. -/
theorem c3_witness :
    ∃ pop', kill_off ([(), (), ()] : List Unit) 1 7 = KillRes.ok pop' ∧
      pop'.length = ([(), (), ()] : List Unit).length - 1 :=
  c3 [(), (), ()] 1 7 (by decide) (by decide) (by decide)

theorem killLoop_all_none {T : Type} :
    ∀ (rem : Nat) (pop : List T) (i : Nat), pop.length = rem → i < pop.length →
      killLoop 1 pop i rem = none := by
  intro rem
  induction rem with
  | zero => intro pop i hlen hi; omega
  | succ re ih =>
    intro pop i hlen hi
    have hel : (pop.eraseIdx i).length = pop.length - 1 :=
      List.length_eraseIdx_of_lt hi
    unfold killLoop
    rw [if_pos hi, if_neg (by omega)]
    by_cases hne : (pop.eraseIdx i).length = 0
    · rw [if_pos hne]
    · rw [if_neg hne]
      exact ih _ _ (by omega) (Nat.mod_lt _ (by omega))

/-- C4: the claim says an out-of-bounds culling count is rejected with a
failure value naming the parameter and its bound.  It is not: `kill_off`
performs no validation at all, and `count = 0` panics at the
`len / count` division instead of returning any failure value. -/
theorem c4_counterexample :
    kill_off ([(), (), ()] : List Unit) 0 5 = KillRes.crash := by
  decide

/-- C4 (amended): for every `count` violating the documented bound
(`count = 0` or `count ≥ L`), `kill_off` panics — division by zero for
`count = 0`, and an empty-population modulus (or, for `count > L`, the
`ratio - 1` underflow) for `count ≥ L` — and never returns an
`InvalidParameter`-style failure value identifying the parameter. -/
theorem c4_amended {T : Type} (pop : List T) (count r : Nat)
    (h : count = 0 ∨ pop.length ≤ count) :
    kill_off pop count r = KillRes.crash := by
  by_cases hc : count = 0
  · unfold kill_off
    rw [if_pos hc]
  · have hlc : pop.length ≤ count := by omega
    by_cases h0 : pop.length = 0
    · unfold kill_off
      rw [if_neg hc, if_pos h0]
    · have hi : r % pop.length < pop.length := Nat.mod_lt _ (by omega)
      by_cases heq : pop.length = count
      · have hr : pop.length / count = 1 := by
          rw [heq]
          exact Nat.div_self (by omega)
        unfold kill_off
        rw [if_neg hc, if_neg h0, hr, killLoop_all_none count pop (r % pop.length) heq hi]
      · have hlt : pop.length < count := by omega
        have hr : pop.length / count = 0 := Nat.div_eq_of_lt hlt
        unfold kill_off
        rw [if_neg hc, if_neg h0, hr]
        have : killLoop 0 pop (r % pop.length) count = none := by
          match count, hc with
          | cc + 1, _ =>
            unfold killLoop
            rw [if_pos hi, if_pos rfl]
        rw [this]

/-- C4 witness: a population of three with `count = 0` and with
`count = 3` both crash rather than return a descriptive failure. -/
theorem c4_witness :
    kill_off ([(), (), ()] : List Unit) 0 11 = KillRes.crash ∧
    kill_off ([(), (), ()] : List Unit) 3 0 = KillRes.crash :=
  ⟨c4_amended [(), (), ()] 0 11 (Or.inl rfl),
   c4_amended [(), (), ()] 3 0 (Or.inr (by decide))⟩

/-- The roulette acceptance test `c <= population[i].fitness() /
max_fitness` (src/sim/seq.rs lines 264-267), with the IEEE `f64` division
semantics made explicit for a zero denominator: `fit / 0.0` is `+inf` for
`fit > 0` (any `c` is accepted), `NaN` for `fit = 0` (every comparison is
false), and `-inf` for `fit < 0` (no `c ∈ [0,1)` is accepted); so with a
zero maximum fitness the test accepts exactly when `0 < fit`.  For a
nonzero denominator the rational quotient stands in for the `f64` one. -/
def rouletteAccept (c fit maxFit : Rat) : Bool :=
  if maxFit = 0 then decide (0 < fit) else decide (c ≤ fit / maxFit)

/-- The maximum fitness computed by `selection_roulette` (src/sim/seq.rs
lines 250-254): sort a clone of the population by fitness ascending and
take the fitness of its last element. -/
def maxFitness {T : Type} (P : Phenotype T) (pop : List T) (h : pop ≠ []) : Rat :=
  P.fitness ((sortByFit P pop).getLast (sortByFit_ne_nil P pop h))

/-- The inner acceptance loop of `selection_roulette` (src/sim/seq.rs
lines 262-270): repeatedly draw an index and a uniform value `c` from the
stream (position `k`) until one individual is accepted.  Returns the
accepted individual, the next stream position and the remaining fuel;
`none` means the loop did not finish within the provided fuel. -/
def rouletteInner {T : Type} (P : Phenotype T) (pop : List T) (h : pop ≠ [])
    (maxFit : Rat) (draws : Nat → Nat × Rat) : Nat → Nat → Option (T × Nat × Nat)
  | _, 0 => none
  | k, fuel + 1 =>
    if rouletteAccept (draws k).2 (P.fitness (idxGet pop (draws k).1 h)) maxFit then
      some (idxGet pop (draws k).1 h, k + 1, fuel)
    else rouletteInner P pop h maxFit draws (k + 1) fuel

/-- The outer `while selected < count` loop of `selection_roulette`
(src/sim/seq.rs lines 259-274): each iteration accepts two individuals and
pushes them as one pair, advancing `selected` by 2.  The first argument is
`count - selected`. -/
def rouletteOuter {T : Type} (P : Phenotype T) (pop : List T) (h : pop ≠ [])
    (maxFit : Rat) (draws : Nat → Nat × Rat) : Nat → Nat → Nat → Option (List (T × T))
  | 0, _, _ => some []
  | 1, k, fuel =>
    match rouletteInner P pop h maxFit draws k fuel with
    | none => none
    | some (a, k1, f1) =>
      match rouletteInner P pop h maxFit draws k1 f1 with
      | none => none
      | some (b, _, _) => some [(a, b)]
  | re + 2, k, fuel =>
    match rouletteInner P pop h maxFit draws k fuel with
    | none => none
    | some (a, k1, f1) =>
      match rouletteInner P pop h maxFit draws k1 f1 with
      | none => none
      | some (b, k2, f2) =>
        match rouletteOuter P pop h maxFit draws re k2 f2 with
        | none => none
        | some l => some ((a, b) :: l)

/-- `Simulator::selection_roulette` (src/sim/seq.rs lines 241-276).
`fuel` bounds how many draws the acceptance loops may consume; a `crash`
for every fuel value means the call never terminates. -/
def selection_roulette {T : Type} (P : Phenotype T) (pop : List T) (count : Nat)
    (draws : Nat → Nat × Rat) (fuel : Nat) : RRes (List (T × T)) :=
  if count = 0 ∨ pop.length ≤ count then
    RRes.err (msgCountFull count)
  else if h0 : pop.length = 0 then
    RRes.crash
  else
    match rouletteOuter P pop (List.length_pos.mp (Nat.pos_of_ne_zero h0))
        (maxFitness P pop (List.length_pos.mp (Nat.pos_of_ne_zero h0))) draws count 0 fuel with
    | none => RRes.crash
    | some l => RRes.ok l

theorem sorted_fit_le_getLast {T : Type} (P : Phenotype T) :
    ∀ (l : List T) (hne : l ≠ []),
      List.Sorted (fun x y => P.fitness x ≤ P.fitness y) l →
      ∀ x ∈ l, P.fitness x ≤ P.fitness (l.getLast hne) := by
  intro l
  induction l with
  | nil => intro hne; exact absurd rfl hne
  | cons a rest ih =>
    intro hne hs x hx
    cases rest with
    | nil =>
      have hxa : x = a := by simpa using hx
      subst hxa
      simp [List.getLast]
    | cons b t =>
      have hrne : (b :: t) ≠ [] := by simp
      rw [List.getLast_cons hrne]
      obtain ⟨ha, hs'⟩ := List.sorted_cons.mp hs
      rcases List.mem_cons.mp hx with hxa | hxr
      · subst hxa
        exact ha _ (List.getLast_mem hrne)
      · exact ih hrne hs' x hxr

theorem fit_le_maxFitness {T : Type} (P : Phenotype T) (pop : List T) (h : pop ≠ [])
    (x : T) (hx : x ∈ pop) : P.fitness x ≤ maxFitness P pop h := by
  haveI ht : IsTotal T (fun a b => P.fitness a ≤ P.fitness b) := ⟨fun a b => le_total _ _⟩
  haveI htr : IsTrans T (fun a b => P.fitness a ≤ P.fitness b) :=
    ⟨fun a b c hab hbc => le_trans hab hbc⟩
  exact sorted_fit_le_getLast P (sortByFit P pop) (sortByFit_ne_nil P pop h)
    (List.sorted_insertionSort _ pop) x ((sortByFit_mem P pop x).mpr hx)

theorem rouletteInner_none {T : Type} (P : Phenotype T) (pop : List T) (h : pop ≠ [])
    (maxFit : Rat) (hm : maxFit = 0) (draws : Nat → Nat × Rat)
    (hfit : ∀ x ∈ pop, P.fitness x ≤ 0) :
    ∀ (fuel k : Nat), rouletteInner P pop h maxFit draws k fuel = none := by
  intro fuel
  induction fuel with
  | zero => intro k; rfl
  | succ f ih =>
    intro k
    have hacc : rouletteAccept (draws k).2 (P.fitness (idxGet pop (draws k).1 h)) maxFit
        = false := by
      subst hm
      unfold rouletteAccept
      rw [if_pos rfl]
      exact decide_eq_false_iff_not.mpr (not_lt.mpr (hfit _ (idxGet_mem pop _ h)))
    unfold rouletteInner
    rw [hacc]
    simp only [Bool.false_eq_true, if_false]
    exact ih (k + 1)

theorem rouletteOuter_none {T : Type} (P : Phenotype T) (pop : List T) (h : pop ≠ [])
    (maxFit : Rat) (hm : maxFit = 0) (draws : Nat → Nat × Rat)
    (hfit : ∀ x ∈ pop, P.fitness x ≤ 0) :
    ∀ (rem k fuel : Nat), 0 < rem →
      rouletteOuter P pop h maxFit draws rem k fuel = none := by
  intro rem k fuel hrem
  match rem, hrem with
  | 1, _ =>
    unfold rouletteOuter
    rw [rouletteInner_none P pop h maxFit hm draws hfit fuel k]
  | re + 2, _ =>
    unfold rouletteOuter
    rw [rouletteInner_none P pop h maxFit hm draws hfit fuel k]

/-- C10: with a maximum fitness of 0 (for instance when every individual
has fitness 0, all fitness values being at most the computed maximum), the
roulette acceptance test `c <= fitness / max_fitness` never accepts any
individual — the `f64` quotient is NaN or -inf — so the inner acceptance
loop runs forever: for every fuel bound and every sequence of random
draws, the call fails to terminate (crash), for every valid `count`. -/
theorem c10 {T : Type} (P : Phenotype T) (pop : List T) (count : Nat)
    (draws : Nat → Nat × Rat) (fuel : Nat) (hne : pop ≠ [])
    (hc : 0 < count) (hcN : count < pop.length)
    (hmax : maxFitness P pop hne = 0) :
    selection_roulette P pop count draws fuel = RRes.crash := by
  have hfit : ∀ x ∈ pop, P.fitness x ≤ 0 := by
    intro x hx
    have hle := fit_le_maxFitness P pop hne x hx
    rw [hmax] at hle
    exact hle
  have hlen0 : ¬(pop.length = 0) := by
    have := List.length_pos.mpr hne
    omega
  have houter : ∀ (h2 : pop ≠ []),
      rouletteOuter P pop h2 (maxFitness P pop h2) draws count 0 fuel = none := by
    intro h2
    exact rouletteOuter_none P pop h2 (maxFitness P pop h2) hmax draws hfit count 0 fuel hc
  unfold selection_roulette
  rw [if_neg (by omega), dif_neg hlen0, houter]

/-- C10 witness: two individuals of fitness 0, `count = 1`, an arbitrary
draw stream and fuel 3. -/
theorem c10_witness :
    selection_roulette unitP [(), ()] 1 (fun _ => (0, 0)) 3 = RRes.crash :=
  c10 unitP [(), ()] 1 (fun _ => (0, 0)) 3 (by decide) (by decide) (by decide) rfl

/-- Rust struct `Simulator` (src/sim/seq.rs lines 10-19).  `max_iters` and
`n_iters` are `i32` (modelled as `Int`); `duration` is
`Option<NanoSecond>`, i.e. an optional `i64` nanosecond count. -/
structure SimState (T : Type) where
  population : List T
  max_iters : Int
  n_iters : Int
  selection_type : SelectionType
  fitness_type : FitnessType
  earlystop : Bool
  earlystopper : EarlyStopper
  duration : Option Int
deriving DecidableEq

/-- The randomness one generation of `run()` may consume: the tournament
draw stream, the raw stochastic starting value, the roulette draw stream
with its fuel, and the raw `kill_off` starting value.  `run()` receives
one such package per generation, so theorems about it quantify over every
possible sequence of draws. -/
structure GenRand where
  t_draws : Nat → Nat
  s_rand : Nat
  r_draws : Nat → Nat × Rat
  r_fuel : Nat
  k_rand : Nat

/-- `Simulator::builder(pop)` followed by `build()` with no setter calls
(src/sim/seq.rs lines 75-88): the default configuration. -/
def builder {T : Type} (pop : List T) : SimState T :=
  { population := pop
    max_iters := 100
    n_iters := 0
    selection_type := SelectionType.Maximize 5
    fitness_type := FitnessType.Maximize
    earlystop := false
    earlystopper := EarlyStopper.new 0 0
    duration := none }

/-- `Simulator::iterations` (src/sim/seq.rs lines 146-148). -/
def iterations {T : Type} (s : SimState T) : Int :=
  s.n_iters

/-- `Simulator::time` (src/sim/seq.rs lines 150-152): `None` models the
`UnavailableResult` condition. -/
def time {T : Type} (s : SimState T) : Option Int :=
  s.duration

/-- `Simulator::get` (src/sim/seq.rs lines 61-70): sort a clone of the
population by fitness ascending, return the last element for Maximize and
the first for Minimize; panics (crash) on an empty population. -/
def SimState.get {T : Type} (s : SimState T) (P : Phenotype T) : RRes T :=
  match sortByFit P s.population with
  | [] => RRes.crash
  | a :: rest =>
    match s.fitness_type with
    | FitnessType.Maximize => RRes.ok ((a :: rest).getLast (List.cons_ne_nil a rest))
    | FitnessType.Minimize => RRes.ok a

/-- The selection dispatch of `run()` (src/sim/seq.rs lines 95-100). -/
def selectParents {T : Type} (P : Phenotype T) (s : SimState T) (g : GenRand) :
    RRes (List (T × T)) :=
  match s.selection_type with
  | SelectionType.Maximize c => selection_maximize P s.population c s.fitness_type
  | SelectionType.Tournament n c =>
    selection_tournament P s.population n c s.fitness_type g.t_draws
  | SelectionType.Stochastic c => selection_stochastic s.population c g.s_rand
  | SelectionType.Roulette c => selection_roulette P s.population c g.r_draws g.r_fuel

/-- The children built from the selected parents (src/sim/seq.rs lines
106-111): `crossover` each pair, then `mutate` each child. -/
def children {T : Type} (P : Phenotype T) (parents : List (T × T)) : List T :=
  parents.map (fun pr => P.mutate (P.crossover pr.1 pr.2))

/-- Result of one generation of `run()`: `ok` carries the updated state
and the early-stop decision; `fail` carries the state at the early
`return Err(..)` together with the message; `crash` is a panic or an inner
loop that never finished. -/
inductive StepRes (T : Type) where
  | ok (s : SimState T) (stop : Bool)
  | fail (s : SimState T) (msg : String)
  | crash
deriving DecidableEq

/-- The best fitness over a nonempty sorted population (src/sim/seq.rs
lines 131-135): last element's fitness for Maximize, first element's for
Minimize. -/
def bestFitness {T : Type} (P : Phenotype T) (ft : FitnessType) (a : T) (rest : List T) :
    Rat :=
  match ft with
  | FitnessType.Maximize => P.fitness ((a :: rest).getLast (List.cons_ne_nil a rest))
  | FitnessType.Minimize => P.fitness a

/-- The early-stop check at the end of a generation (src/sim/seq.rs lines
126-140): when enabled, feed the best fitness of the full population to
`EarlyStopper::update` and report its verdict as the stop flag. -/
def stopCheck {T : Type} (P : Phenotype T) (s1 : SimState T) : StepRes T :=
  if s1.earlystop then
    match sortByFit P s1.population with
    | [] => StepRes.crash
    | a :: rest =>
      StepRes.ok
        { s1 with
          earlystopper := (s1.earlystopper.update (bestFitness P s1.fitness_type a rest)).2 }
        (s1.earlystopper.update (bestFitness P s1.fitness_type a rest)).1
  else StepRes.ok s1 false

/-- One generation of `run()` (src/sim/seq.rs lines 94-140): selection
(failure aborts with the population untouched), children via
crossover+mutate, `kill_off(children.len())` (failure aborts with the
partially culled population), append the children, increment `n_iters`,
then the early-stop check. -/
def generation {T : Type} (P : Phenotype T) (s : SimState T) (g : GenRand) : StepRes T :=
  match selectParents P s g with
  | RRes.err e => StepRes.fail s e
  | RRes.crash => StepRes.crash
  | RRes.ok parents =>
    match kill_off s.population (children P parents).length g.k_rand with
    | KillRes.crash => StepRes.crash
    | KillRes.err pop' e => StepRes.fail { s with population := pop' } e
    | KillRes.ok pop' =>
      stopCheck P
        { s with population := pop' ++ children P parents, n_iters := s.n_iters + 1 }

/-- Result of `run()`: the final state together with `Ok(best)` or
`Err(msg)`, or a crash. -/
inductive RunRes (T : Type) where
  | ok (s : SimState T) (best : T)
  | fail (s : SimState T) (msg : String)
  | crash
deriving DecidableEq

/-- The epilogue of `run()` (src/sim/seq.rs lines 142-143): record the
elapsed duration, then return the best individual.  `elapsed` is the
value `(SteadyTime::now() - time_start).num_nanoseconds()` would produce.
`get` never returns `err`, so that arm maps to `crash`. -/
def finishRun {T : Type} (P : Phenotype T) (s : SimState T) (elapsed : Option Int) :
    RunRes T :=
  match SimState.get { s with duration := elapsed } P with
  | RRes.ok b => RunRes.ok { s with duration := elapsed } b
  | RRes.err _ => RunRes.crash
  | RRes.crash => RunRes.crash

/-- The `while self.n_iters < self.max_iters` loop of `run()`
(src/sim/seq.rs lines 93-141).  The fuel only bounds the number of
iterations; `run` supplies `(max_iters - n_iters).toNat`, which is exact
because each generation increments `n_iters` by one, so the fuel-exhausted
`crash` arm is unreachable from `run`. -/
def runLoop {T : Type} (P : Phenotype T) (g : Nat → GenRand) (elapsed : Option Int) :
    Nat → SimState T → RunRes T
  | 0, s =>
    if s.n_iters < s.max_iters then RunRes.crash else finishRun P s elapsed
  | fuel + 1, s =>
    if s.n_iters < s.max_iters then
      match generation P s (g fuel) with
      | StepRes.crash => RunRes.crash
      | StepRes.fail s' e => RunRes.fail s' e
      | StepRes.ok s' stop =>
        if stop then finishRun P s' elapsed else runLoop P g elapsed fuel s'
    else finishRun P s elapsed

/-- `Simulator::run` (src/sim/seq.rs lines 91-144). -/
def SimState.run {T : Type} (s : SimState T) (P : Phenotype T) (g : Nat → GenRand)
    (elapsed : Option Int) : RunRes T :=
  runLoop P g elapsed (s.max_iters - s.n_iters).toNat s

theorem kill_off_ok_spec {T : Type} (pop : List T) (count r : Nat) (pop' : List T)
    (h : kill_off pop count r = KillRes.ok pop') :
    pop'.length = pop.length - count ∧ count ≤ pop.length := by
  unfold kill_off at h
  split at h
  · exact KillRes.noConfusion h
  · split at h
    · exact KillRes.noConfusion h
    · split at h
      · exact KillRes.noConfusion h
      · rename_i pop2 hk
        split at h
        · rename_i hl
          have h2 := (killLoop_some_le _ count pop (r % pop.length) pop2 hk).2
          cases h
          exact ⟨hl, h2⟩
        · exact KillRes.noConfusion h

theorem stopCheck_ok {T : Type} (P : Phenotype T) (s1 : SimState T) (s' : SimState T)
    (stop : Bool) (h : stopCheck P s1 = StepRes.ok s' stop) :
    s'.population = s1.population ∧ s'.n_iters = s1.n_iters ∧
    s'.max_iters = s1.max_iters ∧ s'.earlystop = s1.earlystop ∧
    s'.duration = s1.duration ∧ (s1.earlystop = false → stop = false) := by
  unfold stopCheck at h
  split at h
  · rename_i he
    split at h
    · exact StepRes.noConfusion h
    · cases h
      exact ⟨rfl, rfl, rfl, rfl, rfl, fun hf => absurd he (by rw [hf]; simp)⟩
  · cases h
    exact ⟨rfl, rfl, rfl, rfl, rfl, fun _ => rfl⟩

theorem stopCheck_not_fail {T : Type} (P : Phenotype T) (s1 : SimState T)
    (s' : SimState T) (e : String) : stopCheck P s1 ≠ StepRes.fail s' e := by
  unfold stopCheck
  split
  · split
    · exact fun h => StepRes.noConfusion h
    · exact fun h => StepRes.noConfusion h
  · exact fun h => StepRes.noConfusion h

theorem generation_ok {T : Type} (P : Phenotype T) (s : SimState T) (g : GenRand)
    (s' : SimState T) (stop : Bool) (h : generation P s g = StepRes.ok s' stop) :
    s'.population.length = s.population.length ∧
    s'.n_iters = s.n_iters + 1 ∧
    s'.max_iters = s.max_iters ∧
    s'.earlystop = s.earlystop ∧
    s'.duration = s.duration ∧
    (s.earlystop = false → stop = false) := by
  unfold generation at h
  split at h
  · exact StepRes.noConfusion h
  · exact StepRes.noConfusion h
  · rename_i parents hsel
    split at h
    · exact StepRes.noConfusion h
    · exact StepRes.noConfusion h
    · rename_i pop' hk
      obtain ⟨hkl, hkle⟩ := kill_off_ok_spec s.population (children P parents).length
        g.k_rand pop' hk
      obtain ⟨hp, hn, hm, he, hd, hstop⟩ := stopCheck_ok P _ s' stop h
      refine ⟨?_, hn, hm, he, hd, hstop⟩
      rw [hp]
      simp only [List.length_append]
      omega

theorem generation_fail_duration {T : Type} (P : Phenotype T) (s : SimState T)
    (g : GenRand) (s' : SimState T) (e : String)
    (h : generation P s g = StepRes.fail s' e) : s'.duration = s.duration := by
  unfold generation at h
  split at h
  · cases h
    rfl
  · exact StepRes.noConfusion h
  · split at h
    · exact StepRes.noConfusion h
    · cases h
      rfl
    · exact absurd h (stopCheck_not_fail P _ s' e)

theorem finishRun_ok {T : Type} (P : Phenotype T) (s : SimState T) (elapsed : Option Int)
    (s' : SimState T) (b : T) (h : finishRun P s elapsed = RunRes.ok s' b) :
    s' = { s with duration := elapsed } := by
  unfold finishRun at h
  split at h
  · cases h
    rfl
  · exact RunRes.noConfusion h
  · exact RunRes.noConfusion h

theorem finishRun_not_fail {T : Type} (P : Phenotype T) (s : SimState T)
    (elapsed : Option Int) (s' : SimState T) (e : String) :
    finishRun P s elapsed ≠ RunRes.fail s' e := by
  unfold finishRun
  split
  · exact fun h => RunRes.noConfusion h
  · exact fun h => RunRes.noConfusion h
  · exact fun h => RunRes.noConfusion h

theorem runLoop_ok {T : Type} (P : Phenotype T) (g : Nat → GenRand) (elapsed : Option Int) :
    ∀ (fuel : Nat) (s s' : SimState T) (b : T), s.earlystop = false →
      runLoop P g elapsed fuel s = RunRes.ok s' b →
      s'.n_iters = max s.n_iters s.max_iters ∧
      s'.population.length = s.population.length ∧
      s'.duration = elapsed := by
  intro fuel
  induction fuel with
  | zero =>
    intro s s' b hes h
    unfold runLoop at h
    split at h
    · exact RunRes.noConfusion h
    · rename_i hcond
      have hfin := finishRun_ok P s elapsed s' b h
      subst hfin
      exact ⟨(max_eq_left (not_lt.mp hcond)).symm, rfl, rfl⟩
  | succ fuel ih =>
    intro s s' b hes h
    unfold runLoop at h
    split at h
    · rename_i hcond
      split at h
      · exact RunRes.noConfusion h
      · exact RunRes.noConfusion h
      · rename_i s1 stop hgen
        obtain ⟨hl, hn, hm, he, _, hstop⟩ := generation_ok P s (g fuel) s1 stop hgen
        have hstop' : stop = false := hstop hes
        subst hstop'
        rw [if_neg (by simp)] at h
        obtain ⟨ihn, ihl, ihd⟩ := ih s1 s' b (by rw [he, hes]) h
        refine ⟨?_, by rw [ihl, hl], ihd⟩
        rw [ihn, hn, hm]
        have h1 : s.n_iters + 1 ≤ s.max_iters := hcond
        rw [max_eq_right h1, max_eq_right (le_of_lt hcond)]
    · rename_i hcond
      have hfin := finishRun_ok P s elapsed s' b h
      subst hfin
      exact ⟨(max_eq_left (not_lt.mp hcond)).symm, rfl, rfl⟩

theorem runLoop_ok_duration {T : Type} (P : Phenotype T) (g : Nat → GenRand)
    (elapsed : Option Int) :
    ∀ (fuel : Nat) (s s' : SimState T) (b : T),
      runLoop P g elapsed fuel s = RunRes.ok s' b → s'.duration = elapsed := by
  intro fuel
  induction fuel with
  | zero =>
    intro s s' b h
    unfold runLoop at h
    split at h
    · exact RunRes.noConfusion h
    · rw [finishRun_ok P s elapsed s' b h]
  | succ fuel ih =>
    intro s s' b h
    unfold runLoop at h
    split at h
    · split at h
      · exact RunRes.noConfusion h
      · exact RunRes.noConfusion h
      · rename_i s1 stop hgen
        split at h
        · rw [finishRun_ok P s1 elapsed s' b h]
        · exact ih s1 s' b h
    · rw [finishRun_ok P s elapsed s' b h]

theorem runLoop_fail_duration {T : Type} (P : Phenotype T) (g : Nat → GenRand)
    (elapsed : Option Int) :
    ∀ (fuel : Nat) (s s' : SimState T) (e : String),
      runLoop P g elapsed fuel s = RunRes.fail s' e → s'.duration = s.duration := by
  intro fuel
  induction fuel with
  | zero =>
    intro s s' e h
    unfold runLoop at h
    split at h
    · exact RunRes.noConfusion h
    · exact absurd h (finishRun_not_fail P s elapsed s' e)
  | succ fuel ih =>
    intro s s' e h
    unfold runLoop at h
    split at h
    · split at h
      · exact RunRes.noConfusion h
      · rename_i s1 e1 hgen
        cases h
        exact generation_fail_duration P s (g fuel) s' e hgen
      · rename_i s1 stop hgen
        split at h
        · exact absurd h (finishRun_not_fail P s1 elapsed s' e)
        · have hd := (generation_ok P s (g fuel) s1 stop hgen).2.2.2.2.1
          rw [ih s1 s' e h, hd]
    · exact absurd h (finishRun_not_fail P s elapsed s' e)

/-- C5: every generation that completes leaves the population length
unchanged (the children appended are exactly as many as the individuals
culled) and increments the iteration counter by exactly one, staying at
most `max_iters` whenever it was below; and with early stopping disabled,
a successful `run()` from a fresh counter with `max_iters = K ≥ 0`
performs exactly K generations — `iterations()` afterwards returns K —
with the population length unchanged. -/
theorem c5 :
    (∀ (T : Type) (P : Phenotype T) (s : SimState T) (g : GenRand) (s' : SimState T)
        (stop : Bool), generation P s g = StepRes.ok s' stop →
      s'.population.length = s.population.length ∧
      s'.n_iters = s.n_iters + 1 ∧
      (s.n_iters < s.max_iters → s'.n_iters ≤ s.max_iters)) ∧
    (∀ (T : Type) (P : Phenotype T) (s : SimState T) (g : Nat → GenRand)
        (elapsed : Option Int) (s' : SimState T) (b : T),
      s.n_iters = 0 → 0 ≤ s.max_iters → s.earlystop = false →
      s.run P g elapsed = RunRes.ok s' b →
      iterations s' = s.max_iters ∧ s'.population.length = s.population.length) := by
  constructor
  · intro T P s g s' stop h
    obtain ⟨hl, hn, _, _, _, _⟩ := generation_ok P s g s' stop h
    exact ⟨hl, hn, fun hlt => by omega⟩
  · intro T P s g elapsed s' b hn0 hK hes h
    obtain ⟨hn, hl, _⟩ := runLoop_ok P g elapsed (s.max_iters - s.n_iters).toNat s s' b hes h
    constructor
    · show s'.n_iters = s.max_iters
      rw [hn, hn0]
      exact max_eq_right hK
    · exact hl

/-- The full randomness package used by the concrete run witnesses. -/
def g0 : GenRand :=
  { t_draws := fun _ => 0, s_rand := 0, r_draws := fun _ => (0, 0), r_fuel := 0,
    k_rand := 0 }

/-- A concrete engine: three trivial individuals, one iteration,
stochastic selection with count 1, early stopping disabled. -/
def s0 : SimState Unit :=
  { population := [(), (), ()]
    max_iters := 1
    n_iters := 0
    selection_type := SelectionType.Stochastic 1
    fitness_type := FitnessType.Minimize
    earlystop := false
    earlystopper := EarlyStopper.new 0 0
    duration := none }

/-- The state `s0` reaches after its single successful generation. -/
def s0final : SimState Unit :=
  { s0 with n_iters := 1, duration := some 5 }

/-- A concrete engine whose selection parameter is invalid
(`Maximize { count: 0 }`), so `run()` aborts with the selection error. -/
def sErr : SimState Unit :=
  { s0 with selection_type := SelectionType.Maximize 0 }

/-- C5 witness: running `s0` for its one generation succeeds, ends with
`iterations() = 1` and an unchanged population length. -/
theorem c5_witness :
    iterations s0final = (1 : Int) ∧ s0final.population.length = s0.population.length := by
  have h := c5.2 Unit unitP s0 (fun _ => g0) (some 5) s0final () rfl (by decide) rfl
    (by decide)
  exact ⟨h.1, h.2⟩

/-- C9: immediately after construction by the builder, `iterations()`
returns 0 and `time()` returns no value; a completed `run()` records the
measured duration, which `time()` then returns; and a `run()` that aborts
with a selection or culling error leaves the duration exactly as it was
(unrecorded). -/
theorem c9 :
    (∀ (T : Type) (pop : List T),
      iterations (builder pop) = 0 ∧ time (builder pop) = none) ∧
    (∀ (T : Type) (P : Phenotype T) (s : SimState T) (g : Nat → GenRand)
        (elapsed : Option Int) (s' : SimState T) (b : T),
      s.run P g elapsed = RunRes.ok s' b → time s' = elapsed) ∧
    (∀ (T : Type) (P : Phenotype T) (s : SimState T) (g : Nat → GenRand)
        (elapsed : Option Int) (s' : SimState T) (e : String),
      s.run P g elapsed = RunRes.fail s' e → time s' = time s) := by
  refine ⟨fun T pop => ⟨rfl, rfl⟩, ?_, ?_⟩
  · intro T P s g elapsed s' b h
    exact runLoop_ok_duration P g elapsed (s.max_iters - s.n_iters).toNat s s' b h
  · intro T P s g elapsed s' e h
    exact runLoop_fail_duration P g elapsed (s.max_iters - s.n_iters).toNat s s' e h

/-- C9 witness: the builder state has iteration count 0 and no duration;
the successful run of `s0` records the elapsed value `some 5`; the
aborting run of `sErr` (invalid selection count) leaves the duration
unrecorded. -/
theorem c9_witness :
    (iterations (builder ([()] : List Unit)) = 0 ∧
      time (builder ([()] : List Unit)) = none) ∧
    time s0final = some 5 ∧
    time sErr = time sErr :=
  ⟨c9.1 Unit [()],
   c9.2.1 Unit unitP s0 (fun _ => g0) (some 5) s0final () (by decide),
   c9.2.2 Unit unitP sErr (fun _ => g0) (some 7) sErr (msgCountHalf 0) rfl⟩
